import Mathlib

/-!
Shallow embedding of `results.py` (congestion-control experiment matrix
runner and metrics aggregator).

Data frames are modelled column-wise, as pandas stores them: a row count
together with a list of named columns.  Cell values are either strings,
exact rationals (standing for the numeric values pandas manipulates), or
a missing-value marker.  External effects (the subprocess invocation, the
state of the `logs/` directory, the artifact files' readability) are
passed in explicitly as an environment, and the uncaught `pd.read_csv`
exception is modelled by `Except`.
-/

/-- A cell value of a data frame: a string, a rational number, or NA. -/
inductive Val where
  | str (s : String)
  | num (q : ℚ)
  | na
deriving DecidableEq, Repr

/-- A pandas-style data frame: a row count and named columns.
Well-formed frames (`DataFrame.WF`) have every column of length `nrows`. -/
structure DataFrame where
  nrows : Nat
  cols : List (String × List Val)
deriving DecidableEq, Repr

/-- Every column has exactly `nrows` entries. -/
def DataFrame.WF (df : DataFrame) : Prop :=
  ∀ c ∈ df.cols, c.2.length = df.nrows

/-- The empty frame `pd.DataFrame()`. -/
def DataFrame.empty : DataFrame := ⟨0, []⟩

/-- First column with the given name (pandas column lookup `df[name]`). -/
def lookupCol (name : String) : List (String × List Val) → Option (List Val)
  | [] => none
  | c :: cs => if c.1 = name then some c.2 else lookupCol name cs

/-- Column names of an association list of columns. -/
def namesOf (cols : List (String × List Val)) : List String :=
  cols.map Prod.fst

/-- Column names of a data frame. -/
def colNames (df : DataFrame) : List String :=
  namesOf df.cols

/-- Column assignment `df[name] = vals` on the column list: overwrite the
column in place if
it exists (pandas writes through every column with that name), otherwise
append it at the end. -/
def setCols (name : String) (vals : List Val) (cols : List (String × List Val)) :
    List (String × List Val) :=
  if cols.any (fun c => c.1 = name) then
    cols.map (fun c => if c.1 = name then (name, vals) else c)
  else
    cols ++ [(name, vals)]

/-- Column assignment `df[name] = vals` on a data frame; the row count is
unchanged. -/
def setCol (df : DataFrame) (name : String) (vals : List Val) : DataFrame :=
  ⟨df.nrows, setCols name vals df.cols⟩

/-- Column values, with missing columns read as a column of NAs (what
`pd.concat` fills in for frames lacking the column). -/
def getColD (df : DataFrame) (name : String) : List Val :=
  (lookupCol name df.cols).getD (List.replicate df.nrows Val.na)

/-- Union of column names over a list of frames, in order of first
appearance (the column order `pd.concat` produces). -/
def unionNames (frames : List DataFrame) : List String :=
  frames.foldl (fun acc f => acc ++ (colNames f).filter (fun n => decide (n ∉ acc))) []

/-- Concatenation `pd.concat(frames, ignore_index=True)`: row count is the sum, each
column of the union is the concatenation of the per-frame columns, with
NA columns for frames that lack the name. -/
def concatFrames (frames : List DataFrame) : DataFrame :=
  ⟨(frames.map (fun f => f.nrows)).sum,
   (unionNames frames).map (fun n => (n, (frames.map (fun f => getColD f n)).flatten))⟩

/-- Record `TestResult`: one run's identity (algorithm, profile) and its
observation table. -/
structure TestResult where
  algorithm : String
  profile : String
  data : DataFrame
deriving DecidableEq, Repr

/-- The per-record body of `_prepare_data`: copy the observation table and
(over)write the identity columns `scheme`, `profile`, `timestamp`, the
last as the ordinal row index `0, 1, ..., n-1`. -/
def addIdentity (r : TestResult) : DataFrame :=
  let d1 := setCol r.data "scheme" (List.replicate r.data.nrows (Val.str r.algorithm))
  let d2 := setCol d1 "profile" (List.replicate d1.nrows (Val.str r.profile))
  setCol d2 "timestamp" ((List.range d2.nrows).map (fun i => Val.num (i : ℚ)))

/-- Aggregator `_prepare_data`: tag every record's table with its identity columns and
concatenate; the empty input yields `pd.DataFrame()`. -/
def prepare_data (results : List TestResult) : DataFrame :=
  if results.isEmpty then DataFrame.empty
  else concatFrames (results.map addIdentity)

/-- One step of glob matching: does the pattern's literal part occur at the
start of the name? -/
def leadMatch : List Char → List Char → Bool
  | [], _ => true
  | _ :: _, [] => false
  | p :: ps, c :: cs => p == c && leadMatch ps cs

/-- Does the name end with the given literal suffix? -/
def tailMatch (suf name : List Char) : Bool :=
  leadMatch suf.reverse name.reverse

/-- Glob pattern `pre*suf`: the name is `pre ++ mid ++ suf` for some `mid`. -/
def globStarMatch (pre suf name : List Char) : Bool :=
  leadMatch pre name && decide (pre.length + suf.length ≤ name.length) && tailMatch suf name

/-- The glob `metrics_<alg>_*.csv` run by `_run_single_test` over `logs/`. -/
def metricsPattern (alg : String) (name : String) : Bool :=
  globStarMatch ("metrics_" ++ alg ++ "_").data ".csv".data name.data

/-- A file in the shared `logs/` directory: its name, its modification
time, and its content as read by `pd.read_csv` (`none` when the file is
unreadable or malformed, i.e. the read raises). -/
structure LogFile where
  name : String
  mtime : Nat
  content : Option DataFrame
deriving DecidableEq, Repr

/-- Selection `sorted(key=os.path.getmtime, reverse=True)[0]` over a list of files in
directory order: the first file attaining the maximal modification time
(Python's sort is stable, and `reverse=True` keeps ties in scan order). -/
def pickNewest : List LogFile → Option LogFile
  | [] => none
  | f :: fs =>
    match pickNewest fs with
    | none => some f
    | some g => if g.mtime > f.mtime then some g else some f

/-- ArtifactLocator: glob `logs/metrics_<alg>_*.csv` and take the most
recently modified match; `none` when no file matches. -/
def locateArtifact (alg : String) (files : List LogFile) : Option LogFile :=
  pickNewest (files.filter (fun f => metricsPattern alg f.name))

/-- The observable external world of one cell: whether the emulation
pipeline exits with status zero, and the state of the `logs/` directory
when the glob runs. -/
structure CellEnv where
  execOk : Bool
  logFiles : List LogFile

/-- Per-cell environment of the whole matrix, keyed by algorithm and
profile key. -/
abbrev Env := String → String → CellEnv

/-- The per-run copy destination `results/profile_<prof>/<alg>/<alg>_cc_log.csv`
used by `shutil.copy` in `_run_single_test`. -/
def destPath (alg prof : String) : String :=
  "results/profile_" ++ prof ++ "/" ++ alg ++ "/" ++ alg ++ "_cc_log.csv"

/-- The immutable network-profile configuration of `TestConfig`. -/
structure NetworkProfile where
  latency : Nat
  dl_trace : String
  ul_trace : String
deriving DecidableEq, Repr

/-- The algorithm list `TestConfig.ALGORITHMS`, in declared order. -/
def ALGORITHMS : List String := ["bbr", "vivace", "vegas"]

/-- The profile table `TestConfig.PROFILES`, in dict insertion order
(Python preserves it). -/
def PROFILES : List (String × NetworkProfile) :=
  [("low_latency",
    ⟨5, "mahimahi/traces/TMobile-LTE-driving.down", "mahimahi/traces/TMobile-LTE-driving.up"⟩),
   ("high_latency",
    ⟨200, "mahimahi/traces/TMobile-LTE-short.down", "mahimahi/traces/TMobile-LTE-short.up"⟩)]

/-- Observable outcome of `_run_single_test`: the returned path (`None` on
failure) and the copy it performed (source file name, destination path),
if any. -/
structure SingleResult where
  returned : Option String
  copied : Option (String × String)
deriving DecidableEq, Repr

/-- Executor `_run_single_test`: on abnormal subprocess termination return `None`
without scanning or copying; otherwise locate the newest matching metrics
artifact, copy it to the canonical per-run path and return that path, or
return `None` when no artifact matches. -/
def run_single_test (alg prof : String) (c : CellEnv) : SingleResult :=
  if c.execOk then
    match locateArtifact alg c.logFiles with
    | some f => ⟨some (destPath alg prof), some (f.name, destPath alg prof)⟩
    | none => ⟨none, none⟩
  else ⟨none, none⟩

/-- The body of `run_all_tests` for one cell: call `_run_single_test`, and
when it returned a path, `pd.read_csv` the copied artifact (whose content
is the located file's content); a failed read raises, modelled as
`Except.error` carrying the (algorithm, profile) of the cell. -/
def readCell (alg prof : String) (c : CellEnv) : Except (String × String) (Option TestResult) :=
  match (run_single_test alg prof c).returned with
  | none => Except.ok none
  | some _ =>
    match locateArtifact alg c.logFiles with
    | some f =>
      match f.content with
      | some d => Except.ok (some ⟨alg, prof, d⟩)
      | none => Except.error (alg, prof)
    | none => Except.ok none

/-- The inner loop of `run_all_tests` over the algorithm list for a fixed
profile; an uncaught read exception aborts the whole loop. -/
def runAlgs (env : Env) (prof : String) : List String → Except (String × String) (List TestResult)
  | [] => Except.ok []
  | a :: rest =>
    match readCell a prof (env a prof) with
    | Except.error e => Except.error e
    | Except.ok r =>
      match runAlgs env prof rest with
      | Except.error e => Except.error e
      | Except.ok rs => Except.ok (r.toList ++ rs)

/-- The outer loop of `run_all_tests` over the profile list. -/
def runProfiles (env : Env) :
    List (String × NetworkProfile) → Except (String × String) (List TestResult)
  | [] => Except.ok []
  | p :: rest =>
    match runAlgs env p.1 ALGORITHMS with
    | Except.error e => Except.error e
    | Except.ok rs =>
      match runProfiles env rest with
      | Except.error e => Except.error e
      | Except.ok rs2 => Except.ok (rs ++ rs2)

/-- MatrixRunner `run_all_tests`: iterate the (profile × algorithm) matrix in declared
configuration order, collecting the successful cells' records. -/
def run_all_tests (env : Env) : Except (String × String) (List TestResult) :=
  runProfiles env PROFILES

/-- The record a single cell contributes when it does not fail: present
exactly when the invocation succeeds, an artifact is located and its copy
is readable. -/
def cellOutcome (env : Env) (prof alg : String) : Option TestResult :=
  if (env alg prof).execOk then
    match locateArtifact alg (env alg prof).logFiles with
    | some f => f.content.map (fun d => ⟨alg, prof, d⟩)
    | none => none
  else none

/-- The sequence the spec describes: the non-failing cells' records, in
matrix iteration order (profiles outer, algorithms inner, declared order). -/
def expectedResults (env : Env) : List TestResult :=
  (PROFILES.map Prod.fst).flatMap (fun p => ALGORITHMS.filterMap (fun a => cellOutcome env p a))

/-- Distinct values in order of first appearance, as `Series.unique()`. -/
def uniqVals (l : List Val) : List Val :=
  l.foldl (fun acc v => if v ∈ acc then acc else acc ++ [v]) []

/-- The rows of the dataset as (scheme, profile, rtt) triples, read from
the three columns. -/
def rttTriples (df : DataFrame) : List (Val × Val × Val) :=
  (getColD df "scheme").zip ((getColD df "profile").zip (getColD df "rtt"))

/-- The subset `data[(data.scheme == alg) & (data.profile == prof)]`,
restricted to the three columns the RTT summary reads. -/
def subsetTriples (df : DataFrame) (alg prof : Val) : List (Val × Val × Val) :=
  (rttTriples df).filter (fun t => decide (t.1 = alg ∧ t.2.1 = prof))

/-- The numeric rtt values of a subset (pandas skips NA values when
computing `mean` and `quantile`). -/
def numValsOf (l : List (Val × Val × Val)) : List ℚ :=
  l.filterMap (fun t => match t.2.2 with | Val.num q => some q | _ => none)

/-- The arithmetic mean, as `Series.mean()`. -/
def meanQ (l : List ℚ) : ℚ := l.sum / l.length

/-- Percentile `Series.quantile(0.95)` with the default linear interpolation: the
value at fractional rank `0.95 * (n - 1)` of the sorted sample,
interpolated between the two bracketing order statistics. -/
def quantile95 (l : List ℚ) : ℚ :=
  let s := List.insertionSort (fun a b : ℚ => a ≤ b) l
  let n := s.length
  if n = 0 then 0
  else
    let k := 95 * (n - 1)
    let lo := k / 100
    let r : ℚ := ((k % 100 : Nat) : ℚ) / 100
    let a := s.getD lo 0
    let b := s.getD (min (lo + 1) (n - 1)) 0
    a + r * (b - a)

/-- Summary `_generate_rtt_summary`: for every profile value and scheme value (in
first-appearance order), emit a row (algorithm, profile, mean rtt, 95th
percentile rtt) when the subset is non-empty. -/
def generate_rtt_summary (df : DataFrame) : List (Val × Val × ℚ × ℚ) :=
  (uniqVals (getColD df "profile")).flatMap (fun p =>
    (uniqVals (getColD df "scheme")).filterMap (fun a =>
      let sub := subsetTriples df a p
      if sub.isEmpty then none
      else some (a, p, meanQ (numValsOf sub), quantile95 (numValsOf sub))))

/-- A two-row observation table used in concrete instances. -/
def tblTwo : DataFrame :=
  ⟨2, [("throughput", [Val.num 3, Val.num 4]), ("rtt", [Val.num 11, Val.num 12])]⟩

/-- A one-row observation table used in concrete instances. -/
def tblOne : DataFrame :=
  ⟨1, [("rtt", [Val.num 7]), ("loss_rate", [Val.num 0])]⟩

/-- Concrete record: bbr under low_latency with two observations. -/
def rW1 : TestResult := ⟨"bbr", "low_latency", tblTwo⟩

/-- Concrete record: vegas under high_latency with one observation. -/
def rW2 : TestResult := ⟨"vegas", "high_latency", tblOne⟩

/-- A single-group dataset whose rtt column is `[10, 20, 30, 40, 50]`. -/
def dfC3 : DataFrame :=
  ⟨5, [("scheme", List.replicate 5 (Val.str "bbr")),
       ("profile", List.replicate 5 (Val.str "low_latency")),
       ("rtt", [Val.num 10, Val.num 20, Val.num 30, Val.num 40, Val.num 50])]⟩

/-- Matrix environment in which the first cell (bbr, low_latency) produced
an unreadable metrics artifact and every other cell a readable one. -/
def envC1 : Env := fun a p =>
  if a = "bbr" ∧ p = "low_latency" then
    ⟨true, [⟨"metrics_bbr_1.csv", 1, none⟩]⟩
  else
    ⟨true, [⟨"metrics_" ++ a ++ "_1.csv", 1, some tblOne⟩]⟩

/-- Cell world with one matching readable artifact for bbr. -/
def cellC6 : CellEnv := ⟨true, [⟨"metrics_bbr_7.csv", 3, some tblTwo⟩]⟩

/-- Matrix environment in which all six cells succeed with a readable
one-row artifact. -/
def envW : Env := fun a _ =>
  ⟨true, [⟨"metrics_" ++ a ++ "_1.csv", 1, some tblOne⟩]⟩

/-- Cell world whose only artifact lacks the `.csv` extension. -/
def cellC9 : CellEnv := ⟨true, [⟨"metrics_bbr_20240101", 5, some tblOne⟩]⟩

/-- Log directory holding artifacts for other algorithms only. -/
def filesC4 : List LogFile :=
  [⟨"metrics_vegas_1.csv", 4, some tblOne⟩, ⟨"metrics_bbrplus_2.csv", 9, some tblOne⟩]

/-- Cell world whose external invocation terminated abnormally. -/
def cellC5 : CellEnv := ⟨false, [⟨"metrics_bbr_3.csv", 2, some tblTwo⟩]⟩

/-- C8: normalize (`_prepare_data`) applied to the empty sequence of
RunRecords returns the empty dataset (zero rows, no columns) and, being a
total function, never raises. -/
theorem prepare_data_nil_empty :
    prepare_data [] = DataFrame.empty ∧ (prepare_data []).nrows = 0 ∧
      (prepare_data []).cols = [] := by
  refine ⟨rfl, rfl, rfl⟩


/-! Section: Association-list lemmas for columns -/

theorem lookupCol_append (n : String) (l1 l2 : List (String × List Val)) :
    lookupCol n (l1 ++ l2) =
      match lookupCol n l1 with
      | some v => some v
      | none => lookupCol n l2 := by
  induction l1 with
  | nil => simp [lookupCol]
  | cons c cs ih =>
    by_cases hc : c.1 = n
    · simp [lookupCol, hc]
    · simp [lookupCol, hc, ih]

theorem lookupCol_none_of_all_ne (n : String) :
    ∀ cols : List (String × List Val), (∀ c ∈ cols, ¬(c.1 = n)) →
      lookupCol n cols = none := by
  intro cols
  induction cols with
  | nil => intro _; rfl
  | cons c cs ih =>
    intro hall
    have hc := hall c (by simp)
    simp only [lookupCol, hc, if_false, if_neg hc]
    exact ih (fun d hd => hall d (by simp [hd]))

theorem lookupCol_map_replace (n : String) (v : List Val) :
    ∀ cols : List (String × List Val), cols.any (fun c => decide (c.1 = n)) = true →
      lookupCol n (cols.map (fun c => if c.1 = n then (n, v) else c)) = some v := by
  intro cols
  induction cols with
  | nil => intro h; simp at h
  | cons c cs ih =>
    intro h
    by_cases hc : c.1 = n
    · simp [lookupCol, hc]
    · have hcs : cs.any (fun c => decide (c.1 = n)) = true := by
        simpa [hc] using h
      simp [lookupCol, hc, ih hcs]

theorem lookupCol_map_replace_ne (m n : String) (hmn : m ≠ n) (v : List Val) :
    ∀ cols : List (String × List Val),
      lookupCol m (cols.map (fun c => if c.1 = n then (n, v) else c)) =
        lookupCol m cols := by
  intro cols
  induction cols with
  | nil => simp [lookupCol]
  | cons c cs ih =>
    by_cases hc : c.1 = n
    · have hcm : ¬(c.1 = m) := by rw [hc]; exact fun h => hmn h.symm
      have hnm : ¬(n = m) := fun h => hmn h.symm
      simp [lookupCol, hc, hcm, hnm, ih]
    · by_cases hcm : c.1 = m
      · simp [lookupCol, hc, hcm, hmn]
      · simp [lookupCol, hc, hcm, ih]

theorem namesOf_map_replace (n : String) (v : List Val) :
    ∀ cols : List (String × List Val),
      namesOf (cols.map (fun c => if c.1 = n then (n, v) else c)) = namesOf cols := by
  intro cols
  induction cols with
  | nil => rfl
  | cons c cs ih =>
    by_cases hc : c.1 = n
    · simp only [namesOf, List.map_cons] at ih ⊢
      rw [if_pos hc]
      simp [hc, ih]
    · simp only [namesOf, List.map_cons] at ih ⊢
      rw [if_neg hc]
      simp [ih]

theorem lookupCol_setCols_self (n : String) (v : List Val)
    (cols : List (String × List Val)) :
    lookupCol n (setCols n v cols) = some v := by
  unfold setCols
  split
  · next h => exact lookupCol_map_replace n v cols h
  · next h =>
    have hall : ∀ c ∈ cols, ¬(c.1 = n) := by
      intro c hc
      have := List.any_eq_false.mp (Bool.eq_false_iff.mpr h) c hc
      simpa using this
    rw [lookupCol_append, lookupCol_none_of_all_ne n cols hall]
    simp [lookupCol]

theorem lookupCol_setCols_ne (m n : String) (hmn : m ≠ n) (v : List Val)
    (cols : List (String × List Val)) :
    lookupCol m (setCols n v cols) = lookupCol m cols := by
  unfold setCols
  split
  · next _ => exact lookupCol_map_replace_ne m n hmn v cols
  · next _ =>
    rw [lookupCol_append]
    cases hl : lookupCol m cols with
    | some v' => simp
    | none =>
      have hne : ¬((n, v).1 = m) := by simpa using fun h => hmn h.symm
      simp [lookupCol, hne]

theorem nodup_namesOf_setCols (n : String) (v : List Val)
    (cols : List (String × List Val)) (hnd : (namesOf cols).Nodup) :
    (namesOf (setCols n v cols)).Nodup := by
  unfold setCols
  split
  · next _ =>
    rw [show (fun c : String × List Val => if c.1 = n then (n, v) else c) =
          (fun c : String × List Val => if c.1 = n then (n, v) else c) from rfl]
    rw [namesOf_map_replace n v cols]
    exact hnd
  · next h =>
    have hnotin : n ∉ namesOf cols := by
      intro hmem
      rcases List.mem_map.mp hmem with ⟨c, hc, hceq⟩
      have := List.any_eq_false.mp (Bool.eq_false_iff.mpr h) c hc
      simp [hceq] at this
    have : namesOf (cols ++ [(n, v)]) = namesOf cols ++ [n] := by simp [namesOf]
    rw [this]
    simp [List.nodup_append, hnd, hnotin]

theorem lookupCol_map_pairs (n : String) (g : String → List Val) :
    ∀ names : List String,
      lookupCol n (names.map (fun m => (m, g m))) =
        if n ∈ names then some (g n) else none := by
  intro names
  induction names with
  | nil => simp [lookupCol]
  | cons m ms ih =>
    by_cases hm : m = n
    · subst hm; simp [lookupCol]
    · have hnm : ¬(n = m) := fun h => hm h.symm
      simp [lookupCol, hm, hnm, ih]

theorem lookup_mem_namesOf (n : String) (cols : List (String × List Val))
    (v : List Val) (h : lookupCol n cols = some v) : n ∈ namesOf cols := by
  induction cols with
  | nil => simp [lookupCol] at h
  | cons c cs ih =>
    by_cases hc : c.1 = n
    · simp [namesOf, hc]
    · simp only [lookupCol, if_neg hc] at h
      simp only [namesOf, List.map_cons, List.mem_cons]
      right
      simpa [namesOf] using ih h

/-! Section: Column-union and concatenation lemmas -/

theorem subset_foldl_union (l : List DataFrame) :
    ∀ acc : List String,
      acc ⊆ l.foldl (fun a f => a ++ (colNames f).filter (fun n => decide (n ∉ a))) acc := by
  induction l with
  | nil => intro acc; simp
  | cons f fs ih =>
    intro acc
    simp only [List.foldl_cons]
    exact List.Subset.trans (List.subset_append_left _ _) (ih _)

theorem mem_foldl_union (n : String) (l : List DataFrame) :
    ∀ acc : List String, ∀ f ∈ l, n ∈ colNames f →
      n ∈ l.foldl (fun a g => a ++ (colNames g).filter (fun m => decide (m ∉ a))) acc := by
  induction l with
  | nil => intro acc f hf _; simp at hf
  | cons g gs ih =>
    intro acc f hf hn
    simp only [List.foldl_cons]
    rcases List.mem_cons.mp hf with hfg | hfg
    · subst hfg
      apply subset_foldl_union gs _
      by_cases hacc : n ∈ acc
      · exact List.mem_append_left _ hacc
      · refine List.mem_append_right _ ?_
        exact List.mem_filter.mpr ⟨hn, by simpa using hacc⟩
    · exact ih _ f hfg hn

theorem mem_unionNames (n : String) (frames : List DataFrame) (f : DataFrame)
    (hf : f ∈ frames) (hn : n ∈ colNames f) : n ∈ unionNames frames :=
  mem_foldl_union n frames [] f hf hn

theorem lookupCol_concatFrames (n : String) (frames : List DataFrame)
    (h : n ∈ unionNames frames) :
    lookupCol n (concatFrames frames).cols =
      some ((frames.map (fun f => getColD f n)).flatten) := by
  show lookupCol n
      ((unionNames frames).map (fun m => (m, (frames.map (fun f => getColD f m)).flatten))) = _
  rw [lookupCol_map_pairs n (fun m => (frames.map (fun f => getColD f m)).flatten)
        (unionNames frames)]
  simp [h]

/-! Section: effect of addIdentity on a record's table -/

theorem addIdentity_nrows (r : TestResult) : (addIdentity r).nrows = r.data.nrows := rfl

theorem addIdentity_cols_eq (r : TestResult) :
    (addIdentity r).cols =
      setCols "timestamp" ((List.range r.data.nrows).map (fun i => Val.num (i : ℚ)))
        (setCols "profile" (List.replicate r.data.nrows (Val.str r.profile))
          (setCols "scheme" (List.replicate r.data.nrows (Val.str r.algorithm))
            r.data.cols)) := rfl

theorem lookupCol_addIdentity_timestamp (r : TestResult) :
    lookupCol "timestamp" (addIdentity r).cols =
      some ((List.range r.data.nrows).map (fun i => Val.num (i : ℚ))) := by
  rw [addIdentity_cols_eq]
  exact lookupCol_setCols_self _ _ _

theorem lookupCol_addIdentity_scheme (r : TestResult) :
    lookupCol "scheme" (addIdentity r).cols =
      some (List.replicate r.data.nrows (Val.str r.algorithm)) := by
  rw [addIdentity_cols_eq]
  rw [lookupCol_setCols_ne _ _ (by decide) _ _, lookupCol_setCols_ne _ _ (by decide) _ _]
  exact lookupCol_setCols_self _ _ _

theorem lookupCol_addIdentity_profile (r : TestResult) :
    lookupCol "profile" (addIdentity r).cols =
      some (List.replicate r.data.nrows (Val.str r.profile)) := by
  rw [addIdentity_cols_eq]
  rw [lookupCol_setCols_ne _ _ (by decide) _ _]
  exact lookupCol_setCols_self _ _ _

theorem lookupCol_addIdentity_other (r : TestResult) (c : String)
    (h1 : c ≠ "scheme") (h2 : c ≠ "profile") (h3 : c ≠ "timestamp") :
    lookupCol c (addIdentity r).cols = lookupCol c r.data.cols := by
  rw [addIdentity_cols_eq]
  rw [lookupCol_setCols_ne _ _ h3 _ _, lookupCol_setCols_ne _ _ h2 _ _,
    lookupCol_setCols_ne _ _ h1 _ _]

/-- C2: normalize (`_prepare_data`) on a non-empty sequence of RunRecords
returns a dataset whose row count is the sum of the per-record row counts
and whose `timestamp` column is, record by record in input order, the
zero-based contiguous ascending sequence `0, 1, ..., n-1` of that record's
row count (stated as: the column is the concatenation of the per-record
ranges). -/
theorem normalize_rowcount_timestamps (rs : List TestResult) (h : rs ≠ []) :
    (prepare_data rs).nrows = (rs.map (fun r => r.data.nrows)).sum ∧
    lookupCol "timestamp" (prepare_data rs).cols =
      some ((rs.map (fun r => (List.range r.data.nrows).map (fun i => Val.num (i : ℚ)))).flatten) := by
  have hne : rs.isEmpty = false := by simpa [List.isEmpty_iff] using h
  constructor
  · simp only [prepare_data, hne, Bool.false_eq_true, if_false]
    show ((rs.map addIdentity).map (fun f => f.nrows)).sum = _
    rw [List.map_map]
    rfl
  · simp only [prepare_data, hne, Bool.false_eq_true, if_false]
    have htim : "timestamp" ∈ unionNames (rs.map addIdentity) := by
      cases rs with
      | nil => exact absurd rfl h
      | cons r rs' =>
        apply mem_unionNames _ _ (addIdentity r) (by simp)
        exact lookup_mem_namesOf _ _ _ (lookupCol_addIdentity_timestamp r)
    rw [lookupCol_concatFrames _ _ htim, List.map_map]
    congr 1
    congr 1
    apply List.map_congr_left
    intro r _
    show getColD (addIdentity r) "timestamp" = _
    unfold getColD
    rw [lookupCol_addIdentity_timestamp r]
    rfl

/-- Witness for `normalize_rowcount_timestamps`: a two-record input with
2 + 1 rows has 3 rows and timestamp column `[0, 1, 0]`. -/
theorem normalize_rowcount_timestamps_witness :
    (prepare_data [rW1, rW2]).nrows = 3 ∧
    lookupCol "timestamp" (prepare_data [rW1, rW2]).cols =
      some [Val.num 0, Val.num 1, Val.num 0] := by
  have h := normalize_rowcount_timestamps [rW1, rW2] (by decide)
  refine ⟨?_, ?_⟩
  · rw [h.1]; rfl
  · rw [h.2]; decide

/-- C10: normalize (`_prepare_data`) leaves every measurement column of a
record's observation table unchanged and (over)writes exactly the three
identity columns — `scheme` with the run's algorithm id, `profile` with
the run's profile key, `timestamp` with the synthetic ordinal index —
creating no duplicate columns; and in the concatenated dataset each
column of the union is exactly the per-record columns joined in record
order, so the record's rows carry its (unchanged) values. -/
theorem normalize_identity_columns_only :
    (∀ r : TestResult,
      (addIdentity r).nrows = r.data.nrows ∧
      (∀ c, c ≠ "scheme" → c ≠ "profile" → c ≠ "timestamp" →
        lookupCol c (addIdentity r).cols = lookupCol c r.data.cols) ∧
      lookupCol "scheme" (addIdentity r).cols =
        some (List.replicate r.data.nrows (Val.str r.algorithm)) ∧
      lookupCol "profile" (addIdentity r).cols =
        some (List.replicate r.data.nrows (Val.str r.profile)) ∧
      lookupCol "timestamp" (addIdentity r).cols =
        some ((List.range r.data.nrows).map (fun i => Val.num (i : ℚ))) ∧
      ((colNames r.data).Nodup → (colNames (addIdentity r)).Nodup)) ∧
    (∀ rs : List TestResult, rs ≠ [] → ∀ n ∈ unionNames (rs.map addIdentity),
      lookupCol n (prepare_data rs).cols =
        some (((rs.map addIdentity).map (fun f => getColD f n)).flatten)) := by
  constructor
  · intro r
    refine ⟨addIdentity_nrows r, ?_, lookupCol_addIdentity_scheme r,
      lookupCol_addIdentity_profile r, lookupCol_addIdentity_timestamp r, ?_⟩
    · intro c h1 h2 h3
      exact lookupCol_addIdentity_other r c h1 h2 h3
    · intro hnd
      show (namesOf (addIdentity r).cols).Nodup
      rw [addIdentity_cols_eq]
      exact nodup_namesOf_setCols _ _ _ (nodup_namesOf_setCols _ _ _
        (nodup_namesOf_setCols _ _ _ hnd))
  · intro rs h n hn
    have hne : rs.isEmpty = false := by simpa [List.isEmpty_iff] using h
    simp only [prepare_data, hne, Bool.false_eq_true, if_false]
    exact lookupCol_concatFrames n (rs.map addIdentity) hn

/-- Witness for `normalize_identity_columns_only`: on a concrete record,
the measurement column `rtt` is untouched, the identity columns hold the
record's identity, the result has no duplicate columns, and the one-record
concatenation reproduces the record's `rtt` column. -/
theorem normalize_identity_columns_only_witness :
    lookupCol "rtt" (addIdentity rW1).cols = lookupCol "rtt" rW1.data.cols ∧
    lookupCol "scheme" (addIdentity rW1).cols =
      some [Val.str "bbr", Val.str "bbr"] ∧
    (colNames (addIdentity rW1)).Nodup ∧
    lookupCol "rtt" (prepare_data [rW1]).cols =
      some (getColD (addIdentity rW1) "rtt") := by
  have h := normalize_identity_columns_only
  refine ⟨(h.1 rW1).2.1 "rtt" (by decide) (by decide) (by decide), ?_, ?_, ?_⟩
  · rw [(h.1 rW1).2.2.1]; decide
  · exact (h.1 rW1).2.2.2.2.2 (by decide)
  · have := h.2 [rW1] (by decide) "rtt" (by decide)
    rw [this]; decide

/-! Section: Artifact-locator lemmas -/

theorem pickNewest_eq_none (fs : List LogFile) :
    pickNewest fs = none ↔ fs = [] := by
  cases fs with
  | nil => simp [pickNewest]
  | cons f fs =>
    simp only [pickNewest]
    cases h : pickNewest fs with
    | none => simp
    | some g =>
      by_cases hm : g.mtime > f.mtime <;> simp [hm]

theorem pickNewest_mem (fs : List LogFile) (g : LogFile)
    (h : pickNewest fs = some g) : g ∈ fs := by
  induction fs with
  | nil => simp [pickNewest] at h
  | cons f fs ih =>
    simp only [pickNewest] at h
    cases hp : pickNewest fs with
    | none =>
      rw [hp] at h
      simp at h
      simp [h]
    | some g' =>
      rw [hp] at h
      by_cases hm : g'.mtime > f.mtime
      · simp only [hm, if_true] at h
        simp at h
        subst h
        exact List.mem_cons_of_mem f (ih hp)
      · simp only [hm, if_false] at h
        simp at h
        simp [h]

theorem locateArtifact_none (alg : String) (files : List LogFile)
    (h : ∀ f ∈ files, metricsPattern alg f.name = false) :
    locateArtifact alg files = none := by
  unfold locateArtifact
  rw [pickNewest_eq_none]
  rw [List.filter_eq_nil_iff]
  intro f hf
  simp [h f hf]

theorem locateArtifact_mem (alg : String) (files : List LogFile) (g : LogFile)
    (h : locateArtifact alg files = some g) :
    g ∈ files ∧ metricsPattern alg g.name = true := by
  have hmem := pickNewest_mem _ _ h
  have := List.mem_filter.mp hmem
  exact ⟨this.1, this.2⟩

theorem leadMatch_append_of_front_false :
    ∀ (pre head : List Char), pre.length ≤ head.length → leadMatch pre head = false →
      ∀ rest : List Char, leadMatch pre (head ++ rest) = false := by
  intro pre
  induction pre with
  | nil => intro head _ hlm; simp [leadMatch] at hlm
  | cons p ps ih =>
    intro head hlen hlm rest
    cases head with
    | nil => simp at hlen
    | cons h hs =>
      simp only [leadMatch, Bool.and_eq_false_iff] at hlm
      rcases hlm with hpc | hlm
      · simp [leadMatch, hpc]
      · simp only [List.cons_append, leadMatch, Bool.and_eq_false_iff]
        right
        exact ih hs (by simpa using hlen) hlm rest

/-- C4: ArtifactLocator (`_run_single_test`'s glob over
`logs/metrics_<alg>_*.csv`) returns `none` when no file matches, is total
(never raises), only ever returns a file matching the algorithm's own
pattern, and the pattern for algorithm `bbr` never matches a file named
for algorithm `bbrplus` (the glob requires a literal `_` right after the
algorithm token). -/
theorem locateArtifact_spec :
    ∀ (alg : String) (files : List LogFile),
      ((∀ f ∈ files, metricsPattern alg f.name = false) → locateArtifact alg files = none) ∧
      (∀ g : LogFile, locateArtifact alg files = some g →
        g ∈ files ∧ metricsPattern alg g.name = true) ∧
      (∀ s : String, metricsPattern "bbr" ("metrics_bbrplus_" ++ s) = false) := by
  intro alg files
  refine ⟨locateArtifact_none alg files, fun g h => locateArtifact_mem alg files g h, ?_⟩
  intro s
  unfold metricsPattern globStarMatch
  rw [String.data_append "metrics_bbrplus_" s]
  have hlead : leadMatch ("metrics_" ++ "bbr" ++ "_").data
      ("metrics_bbrplus_".data ++ s.data) = false := by
    apply leadMatch_append_of_front_false
    · decide
    · decide
  rw [hlead]
  simp

/-- Witness for `locateArtifact_spec`: with only `vegas` and `bbrplus`
artifacts present, locating for `bbr` yields NotFound, and a `bbrplus`
file name never matches the `bbr` pattern. -/
theorem locateArtifact_spec_witness :
    locateArtifact "bbr" filesC4 = none ∧
    metricsPattern "bbr" ("metrics_bbrplus_" ++ "2.csv") = false := by
  have h := locateArtifact_spec "bbr" filesC4
  exact ⟨h.1 (by decide), h.2.2 "2.csv"⟩

/-- C9: the glob pattern ends in `.csv`, so an artifact file whose name
does not end in `.csv` is never matched, and a cell whose only artifacts
lack the extension behaves as NotFound: `_run_single_test` returns `None`
and copies nothing, i.e. the cell is skipped. -/
theorem csv_extension_required :
    (∀ alg name : String, tailMatch ".csv".data name.data = false →
      metricsPattern alg name = false) ∧
    (∀ (alg prof : String) (c : CellEnv),
      (∀ f ∈ c.logFiles, tailMatch ".csv".data f.name.data = false) →
      run_single_test alg prof c = ⟨none, none⟩) := by
  constructor
  · intro alg name h
    unfold metricsPattern globStarMatch
    rw [h]
    simp
  · intro alg prof c h
    have hloc : locateArtifact alg c.logFiles = none := by
      apply locateArtifact_none
      intro f hf
      unfold metricsPattern globStarMatch
      rw [h f hf]
      simp
    unfold run_single_test
    cases hex : c.execOk
    · simp
    · simp [hloc]

/-- Witness for `csv_extension_required`: an artifact named
`metrics_bbr_20240101` (no `.csv`) is ignored, so the cell yields no
path and no copy. -/
theorem csv_extension_required_witness :
    run_single_test "bbr" "low_latency" cellC9 = ⟨none, none⟩ :=
  csv_extension_required.2 "bbr" "low_latency" cellC9 (by decide)

/-- C5: when the external invocation terminates abnormally,
`_run_single_test` returns `None` having performed no artifact scan or
copy, the cell contributes no RunRecord, and the matrix loop over the
remaining cells continues unchanged. -/
theorem exec_failure_no_record :
    ∀ (alg prof : String) (c : CellEnv), c.execOk = false →
      run_single_test alg prof c = ⟨none, none⟩ ∧
      readCell alg prof c = Except.ok none ∧
      (∀ (env : Env) (rest : List String), env alg prof = c →
        runAlgs env prof (alg :: rest) = runAlgs env prof rest) := by
  intro alg prof c h
  have h1 : run_single_test alg prof c = ⟨none, none⟩ := by
    unfold run_single_test
    simp [h]
  have h2 : readCell alg prof c = Except.ok none := by
    unfold readCell
    rw [h1]
  refine ⟨h1, h2, ?_⟩
  intro env rest henv
  simp only [runAlgs, henv, h2]
  cases hr : runAlgs env prof rest <;> simp

/-- Witness for `exec_failure_no_record`: a concrete failed cell returns
`None`, copies nothing and yields no record. -/
theorem exec_failure_no_record_witness :
    run_single_test "bbr" "low_latency" cellC5 = ⟨none, none⟩ ∧
    readCell "bbr" "low_latency" cellC5 = Except.ok none := by
  have h := exec_failure_no_record "bbr" "low_latency" cellC5 (by decide)
  exact ⟨h.1, h.2.1⟩

/-- C6 (amended): on a successful cell the located artifact is copied to
`results/profile_<prof>/<alg>/<alg>_cc_log.csv` — the canonical name
carries a `.csv` extension, unlike the extensionless path
`.../<alg>_cc_log` in the claim. -/
theorem copy_destination_path :
    ∀ (alg prof : String) (c : CellEnv) (f : LogFile), c.execOk = true →
      locateArtifact alg c.logFiles = some f →
      (run_single_test alg prof c).copied =
        some (f.name,
          "results/profile_" ++ prof ++ "/" ++ alg ++ "/" ++ alg ++ "_cc_log.csv") ∧
      (run_single_test alg prof c).returned =
        some ("results/profile_" ++ prof ++ "/" ++ alg ++ "/" ++ alg ++ "_cc_log.csv") := by
  intro alg prof c f hex hloc
  have hrun : run_single_test alg prof c =
      ⟨some (destPath alg prof), some (f.name, destPath alg prof)⟩ := by
    unfold run_single_test
    rw [hex]
    simp [hloc]
  rw [hrun]
  exact ⟨rfl, rfl⟩

/-- Witness for `copy_destination_path`: a concrete successful bbr cell
copies its artifact to `results/profile_low_latency/bbr/bbr_cc_log.csv`. -/
theorem copy_destination_path_witness :
    (run_single_test "bbr" "low_latency" cellC6).copied =
      some ("metrics_bbr_7.csv", "results/profile_low_latency/bbr/bbr_cc_log.csv") := by
  have h := copy_destination_path "bbr" "low_latency" cellC6
    ⟨"metrics_bbr_7.csv", 3, some tblTwo⟩ (by decide) (by decide)
  rw [h.1]
  decide

/-- Counterexample to C6 as stated: the concrete successful cell copies
the artifact to `results/profile_low_latency/bbr/bbr_cc_log.csv`, not to
the extensionless path `results/profile_low_latency/bbr/bbr_cc_log` the
claim names. -/
theorem copy_destination_counterexample :
    (run_single_test "bbr" "low_latency" cellC6).copied =
      some ("metrics_bbr_7.csv", "results/profile_low_latency/bbr/bbr_cc_log.csv") ∧
    ¬((run_single_test "bbr" "low_latency" cellC6).copied =
      some ("metrics_bbr_7.csv", "results/profile_low_latency/bbr/bbr_cc_log")) := by
  decide

/-- C1 (amended): a located artifact whose copy is unreadable or
malformed is NOT caught by `run_all_tests` — the `pd.read_csv` exception
propagates. With the first matrix cell (bbr, low_latency) in that state,
the whole iteration aborts with that cell's error and no result list is
produced, so later cells contribute nothing. -/
theorem unreadable_artifact_aborts :
    ∀ (env : Env) (f : LogFile),
      (env "bbr" "low_latency").execOk = true →
      locateArtifact "bbr" (env "bbr" "low_latency").logFiles = some f →
      f.content = none →
      run_all_tests env = Except.error ("bbr", "low_latency") := by
  intro env f hex hloc hcon
  have hread : readCell "bbr" "low_latency" (env "bbr" "low_latency") =
      Except.error ("bbr", "low_latency") := by
    unfold readCell run_single_test
    rw [hex]
    simp [hloc, hcon]
  have h1 : runAlgs env "low_latency" ALGORITHMS = Except.error ("bbr", "low_latency") := by
    rw [show ALGORITHMS = "bbr" :: ["vivace", "vegas"] from rfl]
    simp only [runAlgs, hread]
  show runProfiles env PROFILES = _
  rw [show PROFILES = ("low_latency",
      ⟨5, "mahimahi/traces/TMobile-LTE-driving.down",
        "mahimahi/traces/TMobile-LTE-driving.up"⟩) ::
      [("high_latency",
        ⟨200, "mahimahi/traces/TMobile-LTE-short.down",
          "mahimahi/traces/TMobile-LTE-short.up"⟩)] from rfl]
  simp only [runProfiles, h1]

/-- Witness for `unreadable_artifact_aborts`: in the concrete environment
`envC1` the first cell's artifact is unreadable and `run_all_tests`
aborts with that cell's error. -/
theorem unreadable_artifact_aborts_witness :
    run_all_tests envC1 = Except.error ("bbr", "low_latency") :=
  unreadable_artifact_aborts envC1 ⟨"metrics_bbr_1.csv", 1, none⟩
    (by decide) (by decide) (by decide)

/-- Counterexample to C1 as stated: in `envC1` every cell's invocation
succeeds and five of the six cells have readable artifacts, yet
`run_all_tests` does not skip the malformed first cell and continue — it
returns no list at all, aborting with the read error. -/
theorem run_all_tests_abort_counterexample :
    run_all_tests envC1 = Except.error ("bbr", "low_latency") ∧
    (run_all_tests envC1).isOk = false := by
  refine ⟨?_, ?_⟩ <;> rfl

/-- C7: `run_all_tests` iterates profiles in declared order and, within
each profile, algorithms in declared order; when every located artifact
is readable it returns exactly the non-failing cells' records, appended
in that iteration order (`expectedResults`). -/
theorem run_all_tests_order (env : Env)
    (hread : ∀ (a p : String) (f : LogFile), (env a p).execOk = true →
      locateArtifact a (env a p).logFiles = some f → f.content ≠ none) :
    run_all_tests env = Except.ok (expectedResults env) := by
  have hcell : ∀ a p, readCell a p (env a p) = Except.ok (cellOutcome env p a) := by
    intro a p
    unfold readCell run_single_test cellOutcome
    cases hex : (env a p).execOk
    · simp
    · cases hloc : locateArtifact a (env a p).logFiles with
      | none => simp [hloc]
      | some f =>
        cases hcon : f.content with
        | none => exact absurd hcon (hread a p f hex hloc)
        | some d => simp [hloc, hcon]
  have halgs : ∀ (p : String) (algs : List String),
      runAlgs env p algs = Except.ok (algs.filterMap (fun a => cellOutcome env p a)) := by
    intro p algs
    induction algs with
    | nil => rfl
    | cons a rest ih =>
      simp only [runAlgs, hcell a p, ih]
      cases hco : cellOutcome env p a with
      | none => simp [List.filterMap_cons, hco]
      | some r => simp [List.filterMap_cons, hco]
  have hprofs : ∀ ps : List (String × NetworkProfile),
      runProfiles env ps = Except.ok ((ps.map Prod.fst).flatMap
        (fun p => ALGORITHMS.filterMap (fun a => cellOutcome env p a))) := by
    intro ps
    induction ps with
    | nil => rfl
    | cons p rest ih =>
      simp only [runProfiles, halgs, ih]
      simp
  show runProfiles env PROFILES = _
  rw [hprofs PROFILES]
  rfl

/-- Witness for `run_all_tests_order`: in the all-successful environment
`envW` the run returns exactly the expected sequence, which has one
record per cell of the 2 × 3 matrix. -/
theorem run_all_tests_order_witness :
    run_all_tests envW = Except.ok (expectedResults envW) ∧
    (expectedResults envW).length = 6 := by
  refine ⟨run_all_tests_order envW ?_, by decide⟩
  intro a p f _ hloc
  have hmem := (locateArtifact_mem a (envW a p).logFiles f hloc).1
  have hf : f = ⟨"metrics_" ++ a ++ "_1.csv", 1, some tblOne⟩ := by
    simpa [envW] using hmem
  rw [hf]
  simp

/-! Section: RTT summary lemmas -/

theorem mem_foldl_uniq (v : Val) :
    ∀ (l acc : List Val), (v ∈ acc ∨ v ∈ l) →
      v ∈ l.foldl (fun acc w => if w ∈ acc then acc else acc ++ [w]) acc := by
  intro l
  induction l with
  | nil =>
    intro acc h
    rcases h with h | h
    · exact h
    · simp at h
  | cons x xs ih =>
    intro acc h
    simp only [List.foldl_cons]
    apply ih
    rcases h with h | h
    · left
      by_cases hx : x ∈ acc <;> simp [hx, h]
    · rcases List.mem_cons.mp h with rfl | h2
      · left
        by_cases hx : v ∈ acc <;> simp [hx]
      · right
        exact h2

theorem mem_uniqVals (v : Val) (l : List Val) (h : v ∈ l) : v ∈ uniqVals l :=
  mem_foldl_uniq v l [] (Or.inr h)

/-- C3: for every non-empty (profile, algorithm) group,
`_generate_rtt_summary` contains the row whose Avg RTT is the arithmetic
mean (sum divided by count) of the group's rtt values and whose 95th RTT
is the value at fractional rank `0.95 * (n - 1)` of a sorted permutation
of the sample, linearly interpolated between the two bracketing order
statistics. -/
theorem rtt_summary_group_row (df : DataFrame) (a p : Val)
    (h : numValsOf (subsetTriples df a p) ≠ []) :
    (a, p, meanQ (numValsOf (subsetTriples df a p)),
      quantile95 (numValsOf (subsetTriples df a p))) ∈ generate_rtt_summary df ∧
    meanQ (numValsOf (subsetTriples df a p)) =
      (numValsOf (subsetTriples df a p)).sum / (numValsOf (subsetTriples df a p)).length ∧
    (∃ s : List ℚ, List.Sorted (fun x y : ℚ => x ≤ y) s ∧
      s.Perm (numValsOf (subsetTriples df a p)) ∧
      quantile95 (numValsOf (subsetTriples df a p)) =
        s.getD (95 * (s.length - 1) / 100) 0 +
          (((95 * (s.length - 1) % 100 : Nat) : ℚ) / 100) *
            (s.getD (min (95 * (s.length - 1) / 100 + 1) (s.length - 1)) 0 -
              s.getD (95 * (s.length - 1) / 100) 0)) := by
  have hsub : subsetTriples df a p ≠ [] := by
    intro hempty
    rw [hempty] at h
    exact h rfl
  obtain ⟨t, ht⟩ := List.exists_mem_of_ne_nil _ hsub
  have htf := List.mem_filter.mp ht
  have hprops : t.1 = a ∧ t.2.1 = p := by simpa using htf.2
  have hmem1 : t.1 ∈ getColD df "scheme" := (List.of_mem_zip htf.1).1
  have hmem2 : t.2.1 ∈ getColD df "profile" :=
    (List.of_mem_zip (List.of_mem_zip htf.1).2).1
  have hamem : a ∈ uniqVals (getColD df "scheme") :=
    mem_uniqVals _ _ (hprops.1 ▸ hmem1)
  have hpmem : p ∈ uniqVals (getColD df "profile") :=
    mem_uniqVals _ _ (hprops.2 ▸ hmem2)
  refine ⟨?_, rfl, ?_⟩
  · unfold generate_rtt_summary
    rw [List.mem_flatMap]
    refine ⟨p, hpmem, ?_⟩
    rw [List.mem_filterMap]
    refine ⟨a, hamem, ?_⟩
    have hie : (subsetTriples df a p).isEmpty = false := by
      simpa [List.isEmpty_iff] using hsub
    simp [hie]
  · refine ⟨List.insertionSort (fun x y : ℚ => x ≤ y) (numValsOf (subsetTriples df a p)),
      List.sorted_insertionSort _ _, List.perm_insertionSort _ _, ?_⟩
    have hlen : (List.insertionSort (fun x y : ℚ => x ≤ y)
        (numValsOf (subsetTriples df a p))).length =
        (numValsOf (subsetTriples df a p)).length :=
      (List.perm_insertionSort _ _).length_eq
    have hn : ¬((List.insertionSort (fun x y : ℚ => x ≤ y)
        (numValsOf (subsetTriples df a p))).length = 0) := by
      rw [hlen]
      simpa [List.length_eq_zero] using h
    simp only [quantile95]
    rw [if_neg hn]

/-- Witness for `rtt_summary_group_row`: the single group with rtt values
`[10, 20, 30, 40, 50]` yields Avg RTT `30` and 95th RTT `48`. -/
theorem rtt_summary_group_row_witness :
    (Val.str "bbr", Val.str "low_latency", (30 : ℚ), (48 : ℚ)) ∈
      generate_rtt_summary dfC3 := by
  have hv : numValsOf (subsetTriples dfC3 (Val.str "bbr") (Val.str "low_latency")) =
      ([10, 20, 30, 40, 50] : List ℚ) := rfl
  have h := rtt_summary_group_row dfC3 (Val.str "bbr") (Val.str "low_latency")
    (by rw [hv]; simp)
  have hm : meanQ ([10, 20, 30, 40, 50] : List ℚ) = 30 := by
    norm_num [meanQ]
  have hq : quantile95 ([10, 20, 30, 40, 50] : List ℚ) = 48 := by
    have hs : List.insertionSort (fun a b : ℚ => a ≤ b) [10, 20, 30, 40, 50] =
        [10, 20, 30, 40, 50] := by
      norm_num [List.insertionSort, List.orderedInsert]
    simp only [quantile95, hs]
    norm_num [List.getD]
  have h1 := h.1
  rw [hv, hm, hq] at h1
  exact h1
